import Mathlib

/-!
Shallow embedding of the css-theme-plugin core: stylesheet variable
extraction (`src/lib/less-vars.ts`) and the loader-chain rewriting and
content-prepend logic (`src/lib/index.ts`).

External collaborators (the `fs` module, the `less` parser, webpack's rule
list) are modelled as explicit parameters or small inductive types; the
functions of the repository itself are translated line by line.
-/

namespace ThemePlugin

/-- A top-level declaration node of the parsed stylesheet tree, as exposed by
the external `less` parser: `name` is the sigil-prefixed variable name
(e.g. `@primary-color`), `value` is the canonical CSS text that the parser's
value rendering (`rule.value.toCSS()`) produces. -/
structure Decl where
  name : String
  value : String
  deriving DecidableEq

/-- The two error kinds of the extraction path (§7 of the design): a failed
file read (`fs.readFileSync` throwing) or a failed parse (`less.parse`
rejecting). Both are rethrown unchanged by `parseLessVariables`. -/
inductive LessError where
  | fileRead
  | parseError
  deriving DecidableEq

/-- A JavaScript object with string values, modelled as an association list in
key insertion order with unique keys (the JS-object iteration order). -/
abbrev VarMap := List (String × String)

/-- JS property assignment `m[k] = v`: if `k` is already a key its value is
replaced in place (position preserved), otherwise `(k, v)` is appended. -/
def jsInsert (m : VarMap) (k v : String) : VarMap :=
  if m.any (fun kv => decide (kv.1 = k)) then
    m.map (fun kv => if kv.1 = k then (k, v) else kv)
  else
    m ++ [(k, v)]

/-- JS property read `m[k]`: the value of the first binding of `k`, if any. -/
def jsGet (m : VarMap) (k : String) : Option String :=
  (m.find? (fun kv => decide (kv.1 = k))).map Prod.snd

/-- The loop body of `parseLessVariables`:
`rules?.forEach((rule) => { variables[rule.name.slice(1)] = rule.value.toCSS(); })`
folded over the tree's top-level rules, starting from the empty object. -/
def parseRules (rules : List Decl) : VarMap :=
  rules.foldl (fun vars r => jsInsert vars (r.name.drop 1) r.value) []

/-- `parseLessVariables(filePath)` from `src/lib/less-vars.ts`: read the file
(`fs.readFileSync`, modelled by `fs : String → Option String`), parse it
(`less.parse`, modelled by `parse : String → Option (List Decl)`), then build
the variables object. Errors of either collaborator are propagated directly
as the corresponding `LessError`, with no retry. -/
def parseLessVariables (parse : String → Option (List Decl))
    (fs : String → Option String) (filePath : String) : Except LessError VarMap :=
  match fs filePath with
  | none => .error .fileRead
  | some content =>
    match parse content with
    | none => .error .parseError
    | some rules => .ok (parseRules rules)

/-- The record returned by `getThemeVars`: `return { light, dark }`. -/
structure ThemeVars where
  light : VarMap
  dark : VarMap
  deriving DecidableEq

/-- `getThemeVars` from `src/lib/index.ts`: extract both theme-variant files
(`Promise.all([lessToJS(darkPath), lessToJS(lightPath)])`); if either
extraction fails the whole call fails. -/
def getThemeVars (parse : String → Option (List Decl))
    (fs : String → Option String) (darkPath lightPath : String) :
    Except LessError ThemeVars :=
  match parseLessVariables parse fs darkPath, parseLessVariables parse fs lightPath with
  | .ok dark, .ok light => .ok ⟨light, dark⟩
  | .error e, _ => .error e
  | .ok _, .error e => .error e

/-- One step of building a JS object from spread pairs. -/
def pairStep (acc : VarMap) (kv : String × String) : VarMap :=
  jsInsert acc kv.1 kv.2

/-- The object spread `{ ...light, ...dark }`: start from `light`'s bindings
and assign every binding of `dark` in order. -/
def spreadMerge (light dark : VarMap) : VarMap :=
  dark.foldl pairStep light

/-- The template `` `~'var(--${themeClassPre}-${key})'` `` from
`getLessVariables`. -/
def varTemplate (pre key : String) : String :=
  "~\x27var(--" ++ pre ++ "-" ++ key ++ ")\x27"

/-- `getLessVariables` from `src/lib/index.ts`:
`Object.keys({ ...light, ...dark }).map((key) => [key, ~'var(--pre-key)'])`. -/
def getLessVariables (parse : String → Option (List Decl))
    (fs : String → Option String) (darkPath lightPath pre : String) :
    Except LessError (List (String × String)) :=
  match getThemeVars parse fs darkPath lightPath with
  | .error e => .error e
  | .ok tv =>
    .ok (((spreadMerge tv.light tv.dark).map Prod.fst).map
      (fun key => (key, varTemplate pre key)))

/-- `lessDefaultAddictionData` from `src/lib/index.ts`:
`variables.reduce((pre, [key, value]) => `${pre}@${key}:${value};`, '')`. -/
def lessDefaultAddictionData (parse : String → Option (List Decl))
    (fs : String → Option String) (darkPath lightPath pre : String) :
    Except LessError String :=
  match getLessVariables parse fs darkPath lightPath pre with
  | .error e => .error e
  | .ok vs =>
    .ok (vs.foldl (fun acc kv => acc ++ "@" ++ kv.1 ++ ":" ++ kv.2 ++ ";") "")

/-- The `originData` argument of `getLessAddictionData`: either a string or an
asynchronous `(content, context) => string` function (the context plays no
role in the claims and is dropped). -/
inductive OriginArg where
  | str (s : String)
  | fn (f : String → String)

/-- Test whether `pat` is a leading segment of `s` (character lists). -/
def leadsWith : List Char → List Char → Bool
  | [], _ => true
  | _ :: _, [] => false
  | p :: ps, c :: cs => decide (p = c) && leadsWith ps cs

/-- Test whether `pat` occurs anywhere inside `s` (character lists). -/
def hasSub (pat : List Char) : List Char → Bool
  | [] => leadsWith pat []
  | c :: cs => leadsWith pat (c :: cs) || hasSub pat cs

/-- JS substring regex test such as `/less-loader/.test(s)`. -/
def strContains (s pat : String) : Bool := hasSub pat.data s.data

/-- JS suffix regex test such as `/less-loader$/.test(s)`. -/
def strEnds (s pat : String) : Bool := leadsWith pat.data.reverse s.data.reverse

/-- JS `String.prototype.trim()`. -/
def trimChars (cs : List Char) : List Char :=
  ((cs.dropWhile Char.isWhitespace).reverse.dropWhile Char.isWhitespace).reverse

/-- The run of characters the regex dot can consume (JS `.` matches anything
except line terminators). -/
def lineSeg (cs : List Char) : List Char :=
  cs.takeWhile (fun c => decide (c ≠ '\n') && decide (c ≠ '\r'))

/-- Length of the segment of `cs` up to and including its last `';'`, if any:
the extent of a greedy `.*;` match. -/
def lastSemiLen : List Char → Option Nat
  | [] => none
  | c :: cs =>
    match lastSemiLen cs with
    | some n => some (n + 1)
    | none => if c = ';' then some 1 else none

/-- Length of the match of the regex `@import.*;` anchored at the head of
`cs`, if it matches there: the literal `@import` (7 characters) followed
greedily by dot-characters up to the last `';'` on the line. -/
def importAtLen (cs : List Char) : Option Nat :=
  if leadsWith "@import".data cs then
    match lastSemiLen (lineSeg (cs.drop 7)) with
    | some n => some (7 + n)
    | none => none
  else none

/-- The left-to-right scan of `newContent.replace(/(@import.*;)/g, $1 + v)`:
at each position try the anchored match; on a match emit it followed by `v`
and continue after it, otherwise emit one character and advance. The fuel is
the length of the scanned list, which every step strictly decreases. -/
def rgReplaceGo (v : List Char) : Nat → List Char → List Char
  | 0, cs => cs
  | _ + 1, [] => []
  | fuel + 1, c :: cs =>
    match importAtLen (c :: cs) with
    | some n => (c :: cs).take n ++ v ++ rgReplaceGo v fuel ((c :: cs).drop n)
    | none => c :: rgReplaceGo v fuel cs

/-- `s.replace(/(@import.*;)/g, `$1${v}`)`. -/
def replaceImports (s v : String) : String :=
  String.mk (rgReplaceGo v.data s.data.length s.data)

/-- The closure returned by `getLessAddictionData(originData)` from
`src/lib/index.ts`, applied to a file's `content`: compute the override block,
apply the original prepend option, then either splice the block after
the import matches (when the combined content, trimmed, starts with
`@import`) or prepend it. -/
def getLessAddictionData (parse : String → Option (List Decl))
    (fs : String → Option String) (darkPath lightPath pre : String)
    (originData : OriginArg) (content : String) : Except LessError String :=
  match lessDefaultAddictionData parse fs darkPath lightPath pre with
  | .error e => .error e
  | .ok vars =>
    let newContent :=
      match originData with
      | .str s => s ++ content
      | .fn f => f content
    if leadsWith "@import".data (trimChars newContent.data) then
      .ok (replaceImports newContent vars)
    else
      .ok (vars ++ newContent)

/-- Whether an `Except` computation failed. -/
def isErr {ε α : Type} : Except ε α → Bool
  | .error _ => true
  | .ok _ => false

/-- The possible values of a loader entry's `options.additionalData` field and
of the `originData` argument at the rule-rewriting level: a string, some
user-supplied function (functions are compared by identity, modelled with a
numeric tag), or the closure `getLessAddictionData(origin)` that the plugin
itself installs. -/
inductive OriginTag where
  | str (s : String)
  | fn (id : Nat)
  | closure (origin : OriginTag)
  deriving DecidableEq

/-- A webpack loader-entry object `{ loader, options }`. The option fields
other than `additionalData` are opaque to the plugin and are modelled by the
fingerprint `opts` (preserved by the object spread `...loadInfo.options`);
`additionalData` is modelled separately because the rewrite replaces it. -/
structure LoaderObj where
  loader : String
  opts : Nat
  additionalData : Option OriginTag
  deriving DecidableEq

/-- One element of a rule's `use` array: a bare loader string, a function, or
a loader-entry object. -/
inductive UseItem where
  | str (s : String)
  | fn (id : Nat)
  | obj (o : LoaderObj)
  deriving DecidableEq

/-- A rule's `use` field: a string, a function, an array of items, or some
other (object) value. -/
inductive UseField where
  | str (s : String)
  | fn (id : Nat)
  | arr (items : List UseItem)
  | obj (o : LoaderObj)
  deriving DecidableEq

/-- A rule's `test` field: a RegExp (recorded together with whether it
matches the sentinel filename `index.less`), a plain string, or a function.
Only RegExp tests that match the sentinel qualify a rule for rewriting. -/
inductive TestField where
  | regex (matchesIndexLess : Bool)
  | str (s : String)
  | fn (id : Nat)
  deriving DecidableEq

/-- A webpack `RuleSetRule`, restricted to the fields the plugin touches. -/
structure Rule where
  test : TestField
  use : UseField
  deriving DecidableEq

/-- The resolved path `path.resolve(__dirname, 'theme-var-loader.cjs')` of the
injected loader. Its exact text is environment dependent; only that it ends
with `theme-var-loader.cjs` matters. -/
def themeVarLoaderPath : String := "/lib/theme-var-loader.cjs"

/-- The path `require.resolve('less-loader')` resolves to. Its exact text is
environment dependent and unused by the claims. -/
def lessLoaderResolvedPath : String := "/node_modules/less-loader/dist/cjs.js"

/-- The injected step `{ loader: loaderPath, options: this.options }`: the
plugin options object carries no `additionalData` field; its other fields are
the fingerprint `1`. -/
def injectedLoader : UseItem := .obj ⟨themeVarLoaderPath, 1, none⟩

/-- `loadInfo?.options?.additionalData || ''` from `formatLessLoader`. -/
def userAdditional (o : LoaderObj) : OriginTag := o.additionalData.getD (.str "")

/-- `formatLessLoader` from `src/lib/index.ts`: a bare string naming the
less-loader (suffix test `/less-loader$/`) becomes a fresh loader object with
the default prepend closure; other strings and functions pass through
unchanged; a loader object keeps its loader and options but has its
`additionalData` replaced by the prepend closure wrapping the previous
value. -/
def formatLessLoader (loadInfo : UseItem) : UseItem :=
  match loadInfo with
  | .str s =>
    if strEnds s "less-loader" then
      .obj ⟨lessLoaderResolvedPath, 0, some (.closure (.str ""))⟩
    else .str s
  | .fn id => .fn id
  | .obj o => .obj ⟨o.loader, o.opts, some (.closure (userAdditional o))⟩

/-- The rule filter from the `environment` hook:
`Object.prototype.toString.call(item.test) === '[object RegExp]' &&
item.test.test('index.less')`. -/
def qualifies (r : Rule) : Bool :=
  match r.test with
  | .regex b => b
  | _ => false

/-- The idempotency scan predicate: a non-string, non-function item whose
`loader` reference contains `theme-var-loader`. -/
def isThemeVarLoaderItem (item : UseItem) : Bool :=
  match item with
  | .obj o => strContains o.loader "theme-var-loader"
  | _ => false

/-- The per-rule mutation of the `environment` hook of `apply`
(`src/lib/index.ts`). `none` models the `TypeError` the hook throws when a
qualifying rule's `use` is an empty array (it then reads `.loader` of
`undefined` inside `formatLessLoader`). -/
def rewriteRule (r : Rule) : Option Rule :=
  if qualifies r then
    match r.use with
    | .str s =>
      if strContains s "less-loader" then
        some { r with use := .arr [injectedLoader, formatLessLoader (.str s)] }
      else some r
    | .arr items =>
      if items.any isThemeVarLoaderItem then some r
      else
        match items.getLast? with
        | none => none
        | some last =>
          some { r with
            use := .arr (items.dropLast ++ [injectedLoader, formatLessLoader last]) }
    | .fn _ => some r
    | .obj _ => some r
  else some r

/-- The whole `environment` hook applied to the rule list: every rule is
rewritten in order; a thrown `TypeError` aborts the hook (`none`). -/
def rewriteRules : List Rule → Option (List Rule)
  | [] => some []
  | r :: rs =>
    match rewriteRule r, rewriteRules rs with
    | some r2, some rs2 => some (r2 :: rs2)
    | _, _ => none

/-- The key/value pair a declaration contributes:
`[rule.name.slice(1), rule.value.toCSS()]`. -/
def toPair (d : Decl) : String × String := (d.name.drop 1, d.value)

/-- Union of two key lists in JS spread order for `{ ...light, ...dark }`:
all light keys first (in their order), then the dark keys not already
present. -/
def unionKeysLightFirst (lightKs darkKs : List String) : List String :=
  lightKs ++ darkKs.filter (fun k => !(decide (k ∈ lightKs)))

/-- The override block a given key list synthesizes: one declaration
`@key:~'var(--pre-key)';` per key, concatenated without separators. -/
def blockFor (pre : String) (ks : List String) : String :=
  ks.foldl (fun acc k => acc ++ "@" ++ k ++ ":" ++ varTemplate pre k ++ ";") ""

/-- A concrete stylesheet parser covering the inputs used by the witnesses
and counterexamples below. -/
def demoParse : String → Option (List Decl) := fun s =>
  if s = "DARK" then some [⟨"@primary-color", "red"⟩, ⟨"@my-color", "green"⟩]
  else if s = "LIGHT" then some [⟨"@primary-color", "blue"⟩]
  else if s = "DX" then some [⟨"@x", "1"⟩]
  else if s = "LY" then some [⟨"@y", "2"⟩]
  else if s = "EMPTY" then some []
  else if s = "AB" then some [⟨"@a", "red"⟩, ⟨"@b", "green"⟩]
  else if s = "DUP" then some [⟨"@a", "red"⟩, ⟨"@a", "blue"⟩]
  else none

/-- A concrete file system covering the paths used by the witnesses and
counterexamples below; `bad.less` holds syntactically invalid content and
`missing.less` does not exist. -/
def demoFs : String → Option String := fun p =>
  if p = "dark.less" then some "DARK"
  else if p = "light.less" then some "LIGHT"
  else if p = "dx.less" then some "DX"
  else if p = "ly.less" then some "LY"
  else if p = "empty.less" then some "EMPTY"
  else if p = "ab.less" then some "AB"
  else if p = "dup.less" then some "DUP"
  else if p = "bad.less" then some "BAD"
  else none

/-! ### Lemmas about the JS-object model -/

theorem anyKey_iff (m : VarMap) (k : String) :
    m.any (fun kv => decide (kv.1 = k)) = true ↔ k ∈ m.map Prod.fst := by
  rw [List.any_eq_true]
  constructor
  · rintro ⟨x, hx, hpx⟩
    exact List.mem_map.mpr ⟨x, hx, of_decide_eq_true hpx⟩
  · intro hx
    rcases List.mem_map.mp hx with ⟨x, hx', hfx⟩
    exact ⟨x, hx', decide_eq_true hfx⟩

theorem jsInsert_keys (m : VarMap) (k v : String) :
    (jsInsert m k v).map Prod.fst =
      if k ∈ m.map Prod.fst then m.map Prod.fst else m.map Prod.fst ++ [k] := by
  by_cases h : k ∈ m.map Prod.fst
  · rw [if_pos h, jsInsert, if_pos ((anyKey_iff m k).mpr h), List.map_map]
    apply List.map_congr_left
    intro kv _
    by_cases hk : kv.1 = k <;> simp [Function.comp, hk]
  · rw [if_neg h, jsInsert, if_neg, List.map_append, List.map_singleton]
    intro hc
    exact h ((anyKey_iff m k).mp hc)

theorem jsInsert_absent {m : VarMap} {k : String} (v : String)
    (h : k ∉ m.map Prod.fst) : jsInsert m k v = m ++ [(k, v)] := by
  rw [jsInsert, if_neg]
  intro hc
  exact h ((anyKey_iff m k).mp hc)

theorem find?_replace_self (m : VarMap) (k v : String) (h : k ∈ m.map Prod.fst) :
    (m.map (fun kv => if kv.1 = k then (k, v) else kv)).find?
      (fun kv => decide (kv.1 = k)) = some (k, v) := by
  induction m with
  | nil => simp at h
  | cons kv m ih =>
    by_cases hk : kv.1 = k
    · simp [List.find?_cons, hk]
    · have h' : k ∈ m.map Prod.fst := by
        rcases List.mem_map.mp h with ⟨x, hx, hfx⟩
        rcases List.mem_cons.mp hx with rfl | hx'
        · exact absurd hfx hk
        · exact List.mem_map.mpr ⟨x, hx', hfx⟩
      simpa [List.find?_cons, hk] using ih h'

theorem find?_replace_other (m : VarMap) {k k' : String} (v : String) (h : k' ≠ k) :
    (m.map (fun kv => if kv.1 = k then (k, v) else kv)).find?
      (fun kv => decide (kv.1 = k')) = m.find? (fun kv => decide (kv.1 = k')) := by
  induction m with
  | nil => rfl
  | cons kv m ih =>
    by_cases hk : kv.1 = k
    · have h1 : ¬ (k = k') := fun hc => h hc.symm
      have h2 : ¬ (kv.1 = k') := hk ▸ h1
      simp [List.find?_cons, hk, h1, h2, ih]
    · simp only [List.map_cons, List.find?_cons, if_neg hk]
      cases hd : decide (kv.1 = k') <;> simp only [ih]

theorem find?_append_single (m : VarMap) (x : String × String)
    (p : String × String → Bool) :
    (m ++ [x]).find? p =
      match m.find? p with
      | some y => some y
      | none => if p x then some x else none := by
  induction m with
  | nil =>
    simp only [List.nil_append, List.find?_cons, List.find?_nil]
    cases hp : p x <;> simp [hp]
  | cons kv m ih =>
    simp only [List.cons_append, List.find?_cons]
    cases hp : p kv <;> simp only [hp, ih]

theorem find?_key_none (m : VarMap) {k : String} (h : k ∉ m.map Prod.fst) :
    m.find? (fun kv => decide (kv.1 = k)) = none := by
  rw [List.find?_eq_none]
  intro x hx
  simp only [decide_eq_true_eq]
  exact fun hc => h (List.mem_map.mpr ⟨x, hx, hc⟩)

theorem jsGet_insert_self (m : VarMap) (k v : String) :
    jsGet (jsInsert m k v) k = some v := by
  by_cases h : k ∈ m.map Prod.fst
  · rw [jsInsert, if_pos ((anyKey_iff m k).mpr h), jsGet, find?_replace_self m k v h]
    rfl
  · rw [jsInsert_absent v h, jsGet, find?_append_single, find?_key_none m h]
    simp

theorem jsGet_insert_other (m : VarMap) {k k' : String} (v : String) (h : k' ≠ k) :
    jsGet (jsInsert m k v) k' = jsGet m k' := by
  by_cases hm : k ∈ m.map Prod.fst
  · rw [jsInsert, if_pos ((anyKey_iff m k).mpr hm), jsGet, find?_replace_other m v h, jsGet]
  · rw [jsInsert_absent v hm, jsGet, find?_append_single, jsGet]
    cases hf : m.find? (fun kv => decide (kv.1 = k')) with
    | some y => rfl
    | none => simp [Ne.symm h]

theorem foldl_pairStep_mem (ps : List (String × String)) (m : VarMap) (k : String) :
    k ∈ (ps.foldl pairStep m).map Prod.fst ↔
      k ∈ m.map Prod.fst ∨ k ∈ ps.map Prod.fst := by
  induction ps generalizing m with
  | nil => simp
  | cons p ps ih =>
    simp only [List.foldl_cons, List.map_cons, List.mem_cons]
    rw [ih, pairStep, jsInsert_keys]
    by_cases hm : p.1 ∈ m.map Prod.fst
    · rw [if_pos hm]
      constructor
      · rintro (h | h)
        · exact Or.inl h
        · exact Or.inr (Or.inr h)
      · rintro (h | rfl | h)
        · exact Or.inl h
        · exact Or.inl hm
        · exact Or.inr h
    · rw [if_neg hm]
      simp only [List.mem_append, List.mem_singleton]
      constructor
      · rintro ((h | rfl) | h)
        · exact Or.inl h
        · exact Or.inr (Or.inl rfl)
        · exact Or.inr (Or.inr h)
      · rintro (h | rfl | h)
        · exact Or.inl (Or.inl h)
        · exact Or.inl (Or.inr rfl)
        · exact Or.inr h

theorem foldl_pairStep_nodup (ps : List (String × String)) (m : VarMap)
    (h : (m.map Prod.fst).Nodup) : ((ps.foldl pairStep m).map Prod.fst).Nodup := by
  induction ps generalizing m with
  | nil => simpa using h
  | cons p ps ih =>
    apply ih
    rw [pairStep, jsInsert_keys]
    by_cases hm : p.1 ∈ m.map Prod.fst
    · rw [if_pos hm]; exact h
    · rw [if_neg hm]
      exact List.nodup_append.mpr ⟨h, List.nodup_singleton _, by simpa using hm⟩

theorem foldl_pairStep_keys (ps : List (String × String)) (m : VarMap)
    (hnd : (ps.map Prod.fst).Nodup) :
    (ps.foldl pairStep m).map Prod.fst =
      m.map Prod.fst ++
        (ps.map Prod.fst).filter (fun k => !(decide (k ∈ m.map Prod.fst))) := by
  induction ps generalizing m with
  | nil => simp
  | cons p ps ih =>
    have hp : p.1 ∉ ps.map Prod.fst := (List.nodup_cons.mp hnd).1
    have hnd' : (ps.map Prod.fst).Nodup := (List.nodup_cons.mp hnd).2
    simp only [List.foldl_cons, List.map_cons, List.filter_cons]
    rw [ih _ hnd', pairStep, jsInsert_keys]
    by_cases hm : p.1 ∈ m.map Prod.fst
    · rw [if_pos hm]
      simp [hm]
    · rw [if_neg hm, List.append_assoc]
      have hcond : (!(decide (p.1 ∈ m.map Prod.fst))) = true := by simp [hm]
      rw [if_pos hcond]
      congr 1
      have hfil : (ps.map Prod.fst).filter
            (fun k => !(decide (k ∈ m.map Prod.fst ++ [p.1]))) =
          (ps.map Prod.fst).filter (fun k => !(decide (k ∈ m.map Prod.fst))) := by
        apply List.filter_congr
        intro x hx
        have hxp : x ≠ p.1 := fun hc => hp (hc ▸ hx)
        simp [List.mem_append, hxp]
      rw [hfil]
      rfl

theorem foldl_pairStep_all_new (ps : List (String × String)) (m : VarMap)
    (hnd : (ps.map Prod.fst).Nodup)
    (hnew : ∀ x ∈ ps, x.1 ∉ m.map Prod.fst) :
    ps.foldl pairStep m = m ++ ps := by
  induction ps generalizing m with
  | nil => simp
  | cons p ps ih =>
    have hp : p.1 ∉ ps.map Prod.fst := (List.nodup_cons.mp hnd).1
    have hnd' : (ps.map Prod.fst).Nodup := (List.nodup_cons.mp hnd).2
    simp only [List.foldl_cons]
    rw [pairStep, jsInsert_absent p.2 (hnew p (List.mem_cons_self p ps))]
    rw [ih _ hnd' (fun x hx => by
      simp only [List.map_append, List.map_singleton, List.mem_append, List.mem_singleton]
      rintro (hc | hc)
      · exact hnew x (List.mem_cons_of_mem p hx) hc
      · exact hp (hc ▸ List.mem_map.mpr ⟨x, hx, rfl⟩))]
    simp

theorem foldl_pairStep_get (ps : List (String × String)) (m : VarMap) (k : String) :
    jsGet (ps.foldl pairStep m) k =
      match (ps.filter (fun kv => decide (kv.1 = k))).getLast? with
      | some kv => some kv.2
      | none => jsGet m k := by
  induction ps using List.reverseRecOn generalizing m with
  | nil => simp
  | append_singleton ps p ih =>
    rw [List.foldl_append, List.foldl_cons, List.foldl_nil, List.filter_append,
      List.filter_cons, List.filter_nil]
    by_cases hpk : p.1 = k
    · rw [if_pos (decide_eq_true hpk), pairStep, hpk, jsGet_insert_self,
        List.getLast?_concat]
    · rw [if_neg (by simpa using hpk), List.append_nil, pairStep,
        jsGet_insert_other _ _ (fun hc => hpk hc.symm), ih]

theorem parseRules_eq (decls : List Decl) :
    parseRules decls = (decls.map toPair).foldl pairStep [] := by
  rw [parseRules, List.foldl_map]
  rfl

theorem parseLessVariables_ok {parse : String → Option (List Decl)}
    {fs : String → Option String} {p : String} {m : VarMap}
    (h : parseLessVariables parse fs p = .ok m) :
    ∃ decls, (∃ c, fs p = some c ∧ parse c = some decls) ∧ m = parseRules decls := by
  cases hf : fs p with
  | none =>
    simp only [parseLessVariables, hf] at h
    exact Except.noConfusion h
  | some c =>
    cases hp : parse c with
    | none =>
      simp only [parseLessVariables, hf, hp] at h
      exact Except.noConfusion h
    | some decls =>
      simp only [parseLessVariables, hf, hp] at h
      refine ⟨decls, ⟨c, rfl, hp⟩, ?_⟩
      injection h with h'
      exact h'.symm

theorem parse_ok_keys_nodup {parse : String → Option (List Decl)}
    {fs : String → Option String} {p : String} {m : VarMap}
    (h : parseLessVariables parse fs p = .ok m) : (m.map Prod.fst).Nodup := by
  rcases parseLessVariables_ok h with ⟨decls, _, rfl⟩
  rw [parseRules_eq]
  exact foldl_pairStep_nodup _ [] (by simp)

/-! ### C1 -/

/-- C1, counterexample: the spec says `extract` returns "exactly one entry per
top-level declaration", but for the valid file `@a: red; @a: blue;` (two
top-level declarations) the code returns a single-entry map, the second
declaration having overwritten the first. -/
theorem c1_counterexample :
    parseLessVariables demoParse demoFs "dup.less" = .ok [("a", "blue")] ∧
    ([("a", "blue")] : VarMap).length ≠
      ([⟨"@a", "red"⟩, ⟨"@a", "blue"⟩] : List Decl).length :=
  ⟨rfl, by decide⟩

/-- C1, amended: for every valid stylesheet file whose top-level declarations
carry pairwise distinct names (after sigil stripping), `parseLessVariables`
returns one entry per declaration, keyed by the name with its leading sigil
character stripped and valued by the declaration's canonical text, in
declaration order with no extra keys and no renaming. -/
theorem c1_amended (parse : String → Option (List Decl)) (fs : String → Option String)
    (p c : String) (decls : List Decl)
    (h1 : fs p = some c) (h2 : parse c = some decls)
    (h3 : (decls.map (fun d => d.name.drop 1)).Nodup) :
    parseLessVariables parse fs p =
      .ok (decls.map (fun d => (d.name.drop 1, d.value))) := by
  simp only [parseLessVariables, h1, h2]
  have hm : parseRules decls = decls.map toPair := by
    rw [parseRules_eq]
    have hnd : ((decls.map toPair).map Prod.fst).Nodup := by
      rw [List.map_map]
      exact h3
    have := foldl_pairStep_all_new (decls.map toPair) [] hnd (by simp)
    simpa using this
  rw [hm]
  rfl

/-- C1, witness for the amended theorem: the file `@a: red; @b: green;`
extracts to exactly `{a: "red", b: "green"}`. -/
theorem c1_witness :
    parseLessVariables demoParse demoFs "ab.less" = .ok [("a", "red"), ("b", "green")] :=
  c1_amended demoParse demoFs "ab.less" "AB" [⟨"@a", "red"⟩, ⟨"@b", "green"⟩]
    rfl rfl (by decide)

/-! ### C7 -/

/-- C7: `parseLessVariables` rejects with the file-read error when the path
does not exist or is unreadable, and with the parse error when the content is
syntactically invalid; in both cases the collaborator's error is propagated
directly to the caller, with no retry. -/
theorem c7_error_propagation (parse : String → Option (List Decl))
    (fs : String → Option String) (p : String) :
    (fs p = none → parseLessVariables parse fs p = .error .fileRead) ∧
    (∀ c, fs p = some c → parse c = none →
      parseLessVariables parse fs p = .error .parseError) := by
  constructor
  · intro h
    simp only [parseLessVariables, h]
  · intro c h1 h2
    simp only [parseLessVariables, h1, h2]

/-- C7, witness: a missing path yields the file-read error and invalid
content yields the parse error. -/
theorem c7_witness :
    parseLessVariables demoParse demoFs "missing.less" = .error .fileRead ∧
    parseLessVariables demoParse demoFs "bad.less" = .error .parseError :=
  ⟨(c7_error_propagation demoParse demoFs "missing.less").1 rfl,
   (c7_error_propagation demoParse demoFs "bad.less").2 "BAD" rfl rfl⟩

/-! ### C8 -/

/-- C8: for every valid stylesheet file whose parsed tree has no top-level
declarations, `parseLessVariables` returns the empty map rather than
failing. -/
theorem c8_empty_map (parse : String → Option (List Decl))
    (fs : String → Option String) (p c : String)
    (h1 : fs p = some c) (h2 : parse c = some []) :
    parseLessVariables parse fs p = .ok [] := by
  simp only [parseLessVariables, h1, h2]
  rfl

/-- C8, witness: a file parsing to zero declarations extracts to the empty
map. -/
theorem c8_witness : parseLessVariables demoParse demoFs "empty.less" = .ok [] :=
  c8_empty_map demoParse demoFs "empty.less" "EMPTY" rfl rfl

/-! ### C10 -/

/-- C10: when a file declares the same top-level variable name more than
once, the returned map binds that name to the value of the last declaration
in document order, and still contains exactly one entry per distinct stripped
name (the key list is duplicate-free and its members are exactly the stripped
declaration names). -/
theorem c10_last_wins (parse : String → Option (List Decl))
    (fs : String → Option String) (p c : String) (decls : List Decl)
    (h1 : fs p = some c) (h2 : parse c = some decls) :
    parseLessVariables parse fs p = .ok (parseRules decls) ∧
    ((parseRules decls).map Prod.fst).Nodup ∧
    (∀ k, k ∈ (parseRules decls).map Prod.fst ↔
      k ∈ decls.map (fun d => d.name.drop 1)) ∧
    (∀ k, jsGet (parseRules decls) k =
      ((decls.filter (fun d => decide (d.name.drop 1 = k))).getLast?).map Decl.value) := by
  refine ⟨by simp only [parseLessVariables, h1, h2], ?_, ?_, ?_⟩
  · rw [parseRules_eq]
    exact foldl_pairStep_nodup _ [] (by simp)
  · intro k
    rw [parseRules_eq, foldl_pairStep_mem, List.map_map]
    simp only [List.map_nil, List.mem_nil_iff, false_or]
    rfl
  · intro k
    rw [parseRules_eq, foldl_pairStep_get, List.filter_map, List.getLast?_map]
    have hsame : decls.filter ((fun kv : String × String => decide (kv.1 = k)) ∘ toPair) =
        decls.filter (fun d => decide (d.name.drop 1 = k)) := rfl
    rw [hsame]
    cases (decls.filter (fun d => decide (d.name.drop 1 = k))).getLast? <;> rfl

/-- C10, witness: in `@a: red; @a: blue;` the key `a` is bound to `blue`. -/
theorem c10_witness :
    parseLessVariables demoParse demoFs "dup.less" =
      .ok (parseRules [⟨"@a", "red"⟩, ⟨"@a", "blue"⟩]) ∧
    jsGet (parseRules [⟨"@a", "red"⟩, ⟨"@a", "blue"⟩]) "a" = some "blue" :=
  ⟨(c10_last_wins demoParse demoFs "dup.less" "DUP" [⟨"@a", "red"⟩, ⟨"@a", "blue"⟩]
      rfl rfl).1,
   (c10_last_wins demoParse demoFs "dup.less" "DUP" [⟨"@a", "red"⟩, ⟨"@a", "blue"⟩]
      rfl rfl).2.2.2 "a"⟩

/-! ### C2 -/

/-- C2, counterexample: the claim puts the dark-variant keys first, but the
spread `{ ...light, ...dark }` enumerates the light-variant keys first. For
dark `{x: 1}`, light `{y: 2}` and prefix `p` the synthesized block starts
with `@y`, not `@x` as the claim requires. -/
theorem c2_counterexample :
    lessDefaultAddictionData demoParse demoFs "dx.less" "ly.less" "p" =
      .ok "@y:~\x27var(--p-y)\x27;@x:~\x27var(--p-x)\x27;" ∧
    ("@y:~\x27var(--p-y)\x27;@x:~\x27var(--p-x)\x27;" : String) ≠
      "@x:~\x27var(--p-x)\x27;@y:~\x27var(--p-y)\x27;" :=
  ⟨rfl, by decide⟩

/-- C2, amended: when both variant extractions succeed,
`lessDefaultAddictionData` returns the concatenation, with no separators, of
one declaration `@name:~'var(--pre-name)';` for each unique name in the union
of the light and dark key sets, in insertion order of first appearance with
light-variant keys preceding the remaining dark-variant keys (so it is the
empty string when both variants declare no variables). -/
theorem c2_amended (parse : String → Option (List Decl)) (fs : String → Option String)
    (dp lp pre : String) (dark light : VarMap)
    (hd : parseLessVariables parse fs dp = .ok dark)
    (hl : parseLessVariables parse fs lp = .ok light) :
    lessDefaultAddictionData parse fs dp lp pre =
      .ok (blockFor pre (unionKeysLightFirst (light.map Prod.fst) (dark.map Prod.fst))) := by
  have hnd : (dark.map Prod.fst).Nodup := parse_ok_keys_nodup hd
  have hkeys : (spreadMerge light dark).map Prod.fst =
      unionKeysLightFirst (light.map Prod.fst) (dark.map Prod.fst) := by
    rw [spreadMerge, foldl_pairStep_keys dark light hnd, unionKeysLightFirst]
  simp only [lessDefaultAddictionData, getLessVariables, getThemeVars, hd, hl]
  rw [hkeys, List.foldl_map]
  rfl

/-- C2, witness for the amended theorem: dark `{primary-color: red,
my-color: green}`, light `{primary-color: blue}`, prefix `antd-theme` yield
exactly the block from the claim's end-to-end scenario. -/
theorem c2_witness :
    lessDefaultAddictionData demoParse demoFs "dark.less" "light.less" "antd-theme" =
      .ok ("@primary-color:~\x27var(--antd-theme-primary-color)\x27;" ++
        "@my-color:~\x27var(--antd-theme-my-color)\x27;") :=
  c2_amended demoParse demoFs "dark.less" "light.less" "antd-theme"
    [("primary-color", "red"), ("my-color", "green")] [("primary-color", "blue")] rfl rfl

/-! ### C9 -/

/-- C9: there is no partial-success mode. If extraction fails for the dark or
the light variant file, then `getThemeVars` fails, theme-block synthesis
(`lessDefaultAddictionData`) fails, and the content-prepend invocation
(`getLessAddictionData`) for that compile fails; no override block is
produced from only the succeeding variant. -/
theorem c9_no_partial_success (parse : String → Option (List Decl))
    (fs : String → Option String) (dp lp pre : String)
    (origin : OriginArg) (content : String)
    (h : isErr (parseLessVariables parse fs dp) = true ∨
      isErr (parseLessVariables parse fs lp) = true) :
    isErr (getThemeVars parse fs dp lp) = true ∧
    isErr (lessDefaultAddictionData parse fs dp lp pre) = true ∧
    isErr (getLessAddictionData parse fs dp lp pre origin content) = true := by
  have htv : ∃ e, getThemeVars parse fs dp lp = .error e := by
    cases hdk : parseLessVariables parse fs dp with
    | error e => exact ⟨e, by simp only [getThemeVars, hdk]⟩
    | ok dark =>
      cases hlt : parseLessVariables parse fs lp with
      | error e => exact ⟨e, by simp only [getThemeVars, hdk, hlt]⟩
      | ok light =>
        rcases h with h | h
        · rw [hdk] at h
          exact absurd h (by simp [isErr])
        · rw [hlt] at h
          exact absurd h (by simp [isErr])
  rcases htv with ⟨e, he⟩
  have h2 : lessDefaultAddictionData parse fs dp lp pre = .error e := by
    simp only [lessDefaultAddictionData, getLessVariables, he]
  have h3 : getLessAddictionData parse fs dp lp pre origin content = .error e := by
    simp only [getLessAddictionData, h2]
  exact ⟨by rw [he]; rfl, by rw [h2]; rfl, by rw [h3]; rfl⟩

/-- C9, witness: with the dark variant file missing, theme-variable
extraction, theme-block synthesis and the content-prepend all fail. -/
theorem c9_witness :
    isErr (getThemeVars demoParse demoFs "missing.less" "light.less") = true ∧
    isErr (lessDefaultAddictionData demoParse demoFs "missing.less" "light.less" "p") = true ∧
    isErr (getLessAddictionData demoParse demoFs "missing.less" "light.less" "p"
      (.str "") "x") = true :=
  c9_no_partial_success demoParse demoFs "missing.less" "light.less" "p" (.str "") "x"
    (Or.inl rfl)

/-! ### C3 -/

/-- C3, counterexample: the claim requires the override block to appear
immediately after each of the two import statements, but the greedy pattern
`@import.*;` matches the whole run `@import 'a.less';@import 'b.less';` as a
single match, so the block is inserted exactly once, after the
second import. -/
theorem c3_counterexample :
    getLessAddictionData demoParse demoFs "dx.less" "ly.less" "p" (.str "")
      "@import \x27a.less\x27;@import \x27b.less\x27;.foo\x7bcolor:red\x7d" =
      .ok ("@import \x27a.less\x27;@import \x27b.less\x27;@y:~\x27var(--p-y)\x27;@x:~\x27var(--p-x)\x27;.foo\x7bcolor:red\x7d") ∧
    ("@import \x27a.less\x27;@import \x27b.less\x27;@y:~\x27var(--p-y)\x27;@x:~\x27var(--p-x)\x27;.foo\x7bcolor:red\x7d" : String) ≠
      "@import \x27a.less\x27;@y:~\x27var(--p-y)\x27;@x:~\x27var(--p-x)\x27;@import \x27b.less\x27;@y:~\x27var(--p-y)\x27;@x:~\x27var(--p-x)\x27;.foo\x7bcolor:red\x7d" :=
  ⟨rfl, by decide⟩

/-- C3, amended: for the content `@import 'a.less';@import 'b.less';.foo{color:red}`
(one line, no original prepend) and any successfully synthesized block `v`,
the rewritten content preserves both import statements verbatim in their
original order and inserts the block exactly once, immediately after the
second import — the single greedy per-line pattern match covering
both imports — and never before either import. -/
theorem c3_amended (parse : String → Option (List Decl)) (fs : String → Option String)
    (dp lp pre v : String)
    (h : lessDefaultAddictionData parse fs dp lp pre = .ok v) :
    getLessAddictionData parse fs dp lp pre (.str "")
      "@import \x27a.less\x27;@import \x27b.less\x27;.foo\x7bcolor:red\x7d" =
      .ok ("@import \x27a.less\x27;@import \x27b.less\x27;" ++ v ++ ".foo\x7bcolor:red\x7d") := by
  simp only [getLessAddictionData, h]
  rfl

/-- C3, witness for the amended theorem at the demo theme files. -/
theorem c3_witness :
    getLessAddictionData demoParse demoFs "dx.less" "ly.less" "p" (.str "")
      "@import \x27a.less\x27;@import \x27b.less\x27;.foo\x7bcolor:red\x7d" =
      .ok ("@import \x27a.less\x27;@import \x27b.less\x27;" ++
        "@y:~\x27var(--p-y)\x27;@x:~\x27var(--p-x)\x27;" ++ ".foo\x7bcolor:red\x7d") :=
  c3_amended demoParse demoFs "dx.less" "ly.less" "p"
    "@y:~\x27var(--p-y)\x27;@x:~\x27var(--p-x)\x27;" rfl

/-! ### C6 -/

/-- C6, counterexample: when the original prepend string itself begins with
an import, the combined content starts with `@import` and the block is
spliced
after the import match instead of being put first, so the returned content is
not "theme block, then original string, then file content" as the claim
states for every input. -/
theorem c6_counterexample :
    getLessAddictionData demoParse demoFs "dx.less" "ly.less" "p"
      (.str "@import \x27a\x27;") ".x\x7bcolor:red\x7d" =
      .ok ("@import \x27a\x27;@y:~\x27var(--p-y)\x27;@x:~\x27var(--p-x)\x27;.x\x7bcolor:red\x7d") ∧
    ("@import \x27a\x27;@y:~\x27var(--p-y)\x27;@x:~\x27var(--p-x)\x27;.x\x7bcolor:red\x7d" : String) ≠
      "@y:~\x27var(--p-y)\x27;@x:~\x27var(--p-x)\x27;@import \x27a\x27;.x\x7bcolor:red\x7d" :=
  ⟨rfl, by decide⟩

/-- C6, amended: provided the combined content's trimmed form does not begin
with `@import`, the content-prepend composes with the original option as the
claim states: for a string option the result is the theme block, then the
original string, then the file content; for a function option it is the theme
block followed by the original function's result on the content (when the
combined content does begin with `@import`, the block is instead spliced
after the import matches). -/
theorem c6_amended (parse : String → Option (List Decl)) (fs : String → Option String)
    (dp lp pre v s c : String) (f : String → String)
    (h : lessDefaultAddictionData parse fs dp lp pre = .ok v)
    (hs : leadsWith "@import".data (trimChars (s ++ c).data) = false)
    (hf : leadsWith "@import".data (trimChars (f c).data) = false) :
    getLessAddictionData parse fs dp lp pre (.str s) c = .ok (v ++ (s ++ c)) ∧
    getLessAddictionData parse fs dp lp pre (.fn f) c = .ok (v ++ f c) := by
  constructor
  · simp only [getLessAddictionData, h, hs]
    simp
  · simp only [getLessAddictionData, h, hf]
    simp

/-- C6, witness for the amended theorem: content `.foo{color:red}` with no
leading import, an empty original string option and the identity original
function. -/
theorem c6_witness :
    getLessAddictionData demoParse demoFs "dx.less" "ly.less" "p" (.str "")
      ".foo\x7bcolor:red\x7d" =
      .ok ("@y:~\x27var(--p-y)\x27;@x:~\x27var(--p-x)\x27;" ++ ("" ++ ".foo\x7bcolor:red\x7d")) ∧
    getLessAddictionData demoParse demoFs "dx.less" "ly.less" "p" (.fn (fun t => t))
      ".foo\x7bcolor:red\x7d" =
      .ok ("@y:~\x27var(--p-y)\x27;@x:~\x27var(--p-x)\x27;" ++ ".foo\x7bcolor:red\x7d") :=
  c6_amended demoParse demoFs "dx.less" "ly.less" "p"
    "@y:~\x27var(--p-y)\x27;@x:~\x27var(--p-x)\x27;" "" ".foo\x7bcolor:red\x7d"
    (fun t => t) rfl rfl rfl

/-! ### C4, C5 -/

theorem isThemeVarLoaderItem_injected : isThemeVarLoaderItem injectedLoader = true := rfl

/-- A rule a successful rewrite produced is left untouched by a second
rewrite: the injected-step-presence scan (or the unchanged branch) fires. -/
theorem rewriteRule_stable {r r' : Rule} (h : rewriteRule r = some r') :
    rewriteRule r' = some r' := by
  obtain ⟨t, u⟩ := r
  by_cases hq : qualifies ⟨t, u⟩ = true
  · cases u with
    | str s =>
      rw [rewriteRule, if_pos hq] at h
      dsimp only at h
      by_cases hc : strContains s "less-loader" = true
      · rw [if_pos hc] at h
        injection h with h'
        subst h'
        have hq2 : qualifies ⟨t, UseField.arr
            [injectedLoader, formatLessLoader (UseItem.str s)]⟩ = true := hq
        rw [rewriteRule, if_pos hq2]
        dsimp only
        have hscan : ([injectedLoader, formatLessLoader (.str s)].any
            isThemeVarLoaderItem) = true := by
          simp [List.any_cons, isThemeVarLoaderItem_injected]
        rw [if_pos hscan]
      · rw [if_neg hc] at h
        injection h with h'
        subst h'
        rw [rewriteRule, if_pos hq]
        dsimp only
        rw [if_neg hc]
    | fn i =>
      rw [rewriteRule, if_pos hq] at h
      dsimp only at h
      injection h with h'
      subst h'
      rw [rewriteRule, if_pos hq]
    | obj o =>
      rw [rewriteRule, if_pos hq] at h
      dsimp only at h
      injection h with h'
      subst h'
      rw [rewriteRule, if_pos hq]
    | arr items =>
      rw [rewriteRule, if_pos hq] at h
      dsimp only at h
      by_cases hscan : items.any isThemeVarLoaderItem = true
      · rw [if_pos hscan] at h
        injection h with h'
        subst h'
        rw [rewriteRule, if_pos hq]
        dsimp only
        rw [if_pos hscan]
      · rw [if_neg hscan] at h
        cases hlast : items.getLast? with
        | none =>
          rw [hlast] at h
          exact Option.noConfusion h
        | some lastItem =>
          rw [hlast] at h
          dsimp only at h
          injection h with h'
          subst h'
          have hq2 : qualifies ⟨t, UseField.arr
              (items.dropLast ++ [injectedLoader, formatLessLoader lastItem])⟩ = true := hq
          rw [rewriteRule, if_pos hq2]
          dsimp only
          have hscan2 : ((items.dropLast ++ [injectedLoader, formatLessLoader lastItem]).any
              isThemeVarLoaderItem) = true := by
            rw [List.any_append]
            simp [List.any_cons, isThemeVarLoaderItem_injected]
          rw [if_pos hscan2]
  · rw [rewriteRule, if_neg hq] at h
    injection h with h'
    subst h'
    rw [rewriteRule, if_neg hq]

/-- C4: the loader-chain rewrite is idempotent. Whenever one application of
the `environment` hook maps the rule list `rules` to `rules2`, applying the
hook again to `rules2` leaves it identical, because every rewritten rule's
step sequence now contains the injected step (whose loader reference matches
`theme-var-loader`) and is skipped, and every untouched rule is untouched
again. -/
theorem c4_idempotent (rules rules2 : List Rule)
    (h : rewriteRules rules = some rules2) : rewriteRules rules2 = some rules2 := by
  induction rules generalizing rules2 with
  | nil =>
    rw [rewriteRules] at h
    injection h with h'
    subst h'
    rfl
  | cons r rs ih =>
    cases hr : rewriteRule r with
    | none =>
      rw [rewriteRules, hr] at h
      cases hrs : rewriteRules rs with
      | none => rw [hrs] at h; exact Option.noConfusion h
      | some rs2 => rw [hrs] at h; exact Option.noConfusion h
    | some r2 =>
      cases hrs : rewriteRules rs with
      | none =>
        rw [rewriteRules, hr, hrs] at h
        exact Option.noConfusion h
      | some rs2 =>
        rw [rewriteRules, hr, hrs] at h
        injection h with h'
        subst h'
        rw [rewriteRules, rewriteRule_stable hr, ih rs2 hrs]

/-- C4, witness: a concrete rule list with a string-form rule, an array-form
rule, a non-matching rule and a non-RegExp rule; the once-rewritten list is a
fixed point of the rewrite. -/
theorem c4_witness :
    rewriteRules
      [⟨.regex true, .arr [injectedLoader,
          .obj ⟨lessLoaderResolvedPath, 0, some (.closure (.str ""))⟩]⟩,
       ⟨.regex true, .arr [.fn 0, injectedLoader,
          .obj ⟨lessLoaderResolvedPath, 0, some (.closure (.str ""))⟩]⟩,
       ⟨.regex false, .arr [.str "b"]⟩,
       ⟨.str "s", .fn 3⟩] =
    some
      [⟨.regex true, .arr [injectedLoader,
          .obj ⟨lessLoaderResolvedPath, 0, some (.closure (.str ""))⟩]⟩,
       ⟨.regex true, .arr [.fn 0, injectedLoader,
          .obj ⟨lessLoaderResolvedPath, 0, some (.closure (.str ""))⟩]⟩,
       ⟨.regex false, .arr [.str "b"]⟩,
       ⟨.str "s", .fn 3⟩] :=
  c4_idempotent
    [⟨.regex true, .str "x/less-loader"⟩,
     ⟨.regex true, .arr [.fn 0, .str "a/less-loader"]⟩,
     ⟨.regex false, .arr [.str "b"]⟩,
     ⟨.str "s", .fn 3⟩] _ rfl

/-- C5: for every qualifying rule whose step sequence is an array not already
containing the injected step, the rewrite replaces the last element in place
with its wrapped form (`formatLessLoader`) and inserts the injected step
immediately before that position, leaving all earlier elements unchanged: the
resulting sequence is the original prefix followed by the injected step and
the wrapped last step. -/
theorem c5_last_wrapped (t : TestField) (items : List UseItem) (lastItem : UseItem)
    (hq : qualifies ⟨t, .arr (items ++ [lastItem])⟩ = true)
    (hs : (items ++ [lastItem]).any isThemeVarLoaderItem = false) :
    rewriteRule ⟨t, .arr (items ++ [lastItem])⟩ =
      some ⟨t, .arr (items ++ [injectedLoader, formatLessLoader lastItem])⟩ := by
  rw [rewriteRule, if_pos hq]
  dsimp only
  rw [if_neg (by simp [hs]), List.getLast?_concat]
  dsimp only
  rw [List.dropLast_concat]

/-- C5, witness: a qualifying two-step rule `[fn, 'a/less-loader']` becomes
`[fn, injected-step, wrapped('a/less-loader')]`. -/
theorem c5_witness :
    rewriteRule ⟨.regex true, .arr [.fn 0, .str "a/less-loader"]⟩ =
      some ⟨.regex true, .arr [.fn 0, injectedLoader,
        .obj ⟨lessLoaderResolvedPath, 0, some (.closure (.str ""))⟩]⟩ :=
  c5_last_wrapped (.regex true) [.fn 0] (.str "a/less-loader") rfl rfl

end ThemePlugin
